import Mathlib

/-!
Verification of the explorer-network-connectors multiplexing/execution core.

The repository ships the strategy factory (`src/strategies/requestStrategy.ts`),
the public index, the JSON-RPC wire types and the network-client test suites.
The concrete strategy implementations (`fallbackStrategy.ts`,
`parallelStrategy.ts`, `RpcClient.ts`, `strategiesTypes.ts`) are referenced by
the factory, the index and the tests but their sources are not part of the
checkout; where a definition embeds one of those missing modules it is
modelled from the specification and says so in its doc comment.

Machine integers are modelled as `Nat`/`Int` with explicit `% 2^32`
wrapping where the JavaScript code wraps; thrown exceptions are modelled as
`Except String`; concurrency is modelled by passing each endpoint's settled
call outcome as data (the parallel strategy collects results index-paired,
so the model takes the settled outcomes in configuration order).
-/

/-- Modelled from the spec: a JSON value (null/bool/number/string/array/object),
the tagged parameter/result type of §9 ("Dynamic/untyped parameter lists").
Numbers are modelled as integers; the claims under study never depend on
fractional numerics. An object is its ordered field list, as in JavaScript. -/
inductive Json where
  | null : Json
  | bool (b : Bool) : Json
  | num (n : Int) : Json
  | str (s : String) : Json
  | arr (elems : List Json) : Json
  | obj (fields : List (String × Json)) : Json

mutual

/-- Modelled from the spec: JSON.stringify-style serialization used by the
parallel strategy's normalization step ("serialize the value"). String
escaping is elided; the claims quantify over payloads where it is inert. -/
def Json.serialize : Json → String
  | .null => "null"
  | .bool true => "true"
  | .bool false => "false"
  | .num n => toString n
  | .str s => "\"" ++ s ++ "\""
  | .arr xs => "[" ++ serializeElems xs ++ "]"
  | .obj fs => "\x7b" ++ serializeFields fs ++ "\x7d"
  termination_by structural j => j

/-- Comma-separated serialization of array elements. -/
def serializeElems : List Json → String
  | [] => ""
  | [x] => Json.serialize x
  | x :: y :: rest => Json.serialize x ++ "," ++ serializeElems (y :: rest)

/-- Comma-separated serialization of object fields as "key":value. -/
def serializeFields : List (String × Json) → String
  | [] => ""
  | [(k, v)] => "\"" ++ k ++ "\":" ++ Json.serialize v
  | (k, v) :: f :: rest =>
      "\"" ++ k ++ "\":" ++ Json.serialize v ++ "," ++ serializeFields (f :: rest)

end

/-- Lexicographic comparison of character lists by code point, the order
JavaScript's Array.prototype.sort() applies to string keys. -/
def charsLe : List Char → List Char → Bool
  | [], _ => true
  | _ :: _, [] => false
  | a :: as, b :: bs =>
    if a.toNat < b.toNat then true
    else if b.toNat < a.toNat then false
    else charsLe as bs

/-- Lexicographic comparison of strings by code point. -/
def strLe (a b : String) : Bool := charsLe a.data b.data

/-- Ordering of object fields by key, the order used when the top-level keys
are "sorted lexicographically". -/
def keyLe (p q : String × Json) : Prop := strLe p.1 q.1 = true

/-- Strict version of `keyLe`, used to show sorted field lists are unique. -/
def keyLt (p q : String × Json) : Prop := keyLe p q ∧ p.1 ≠ q.1

instance : DecidableRel keyLe := fun p q => inferInstanceAs (Decidable (strLe p.1 q.1 = true))

instance : IsTotal (String × Json) keyLe := by
  constructor
  intro a b
  show strLe a.1 b.1 = true ∨ strLe b.1 a.1 = true
  unfold strLe
  generalize a.1.data = x
  generalize b.1.data = y
  induction x generalizing y with
  | nil => exact Or.inl rfl
  | cons c cs ih =>
    cases y with
    | nil => exact Or.inr rfl
    | cons d ds =>
      by_cases h1 : c.toNat < d.toNat
      · simp [charsLe, h1]
      · by_cases h2 : d.toNat < c.toNat
        · simp [charsLe, h1, h2]
        · simpa [charsLe, h1, h2] using ih ds

instance : IsTrans (String × Json) keyLe := by
  constructor
  suffices h : ∀ x y z : List Char,
      charsLe x y = true → charsLe y z = true → charsLe x z = true by
    intro a b c hab hbc
    exact h a.1.data b.1.data c.1.data hab hbc
  intro x
  induction x with
  | nil => intro y z _ _; rfl
  | cons c1 cs ih =>
    intro y z hab hbc
    cases y with
    | nil => simp [charsLe] at hab
    | cons d1 ds =>
      cases z with
      | nil => simp [charsLe] at hbc
      | cons e1 es =>
        by_cases h1 : c1.toNat < d1.toNat
        · by_cases h2 : d1.toNat < e1.toNat
          · simp [charsLe, Nat.lt_trans h1 h2]
          · by_cases h3 : e1.toNat < d1.toNat
            · simp [charsLe, h2, h3] at hbc
            · have h4 : c1.toNat < e1.toNat := by omega
              simp [charsLe, h4]
        · by_cases h5 : d1.toNat < c1.toNat
          · simp [charsLe, h1, h5] at hab
          · by_cases h2 : d1.toNat < e1.toNat
            · have h4 : c1.toNat < e1.toNat := by omega
              simp [charsLe, h4]
            · by_cases h3 : e1.toNat < d1.toNat
              · simp [charsLe, h2, h3] at hbc
              · have h6 : ¬ c1.toNat < e1.toNat := by omega
                have h7 : ¬ e1.toNat < c1.toNat := by omega
                simp [charsLe, h1, h5] at hab
                simp [charsLe, h2, h3] at hbc
                simpa [charsLe, h6, h7] using ih ds es hab hbc

instance : IsAntisymm (String × Json) keyLt := by
  constructor
  suffices h : ∀ x y : List Char, charsLe x y = true → charsLe y x = true → x = y by
    intro a b h1 h2
    exfalso
    apply h1.2
    have hdata : a.1.data = b.1.data := h a.1.data b.1.data h1.1 h2.1
    calc a.1 = String.mk a.1.data := rfl
      _ = String.mk b.1.data := by rw [hdata]
      _ = b.1 := rfl
  intro x
  induction x with
  | nil =>
    intro y hab hba
    cases y with
    | nil => rfl
    | cons d ds => simp [charsLe] at hba
  | cons c cs ih =>
    intro y hab hba
    cases y with
    | nil => simp [charsLe] at hab
    | cons d ds =>
      by_cases hlt : c.toNat < d.toNat
      · have hng : ¬ d.toNat < c.toNat := by omega
        simp [charsLe, hlt, hng] at hba
      · by_cases hgt : d.toNat < c.toNat
        · simp [charsLe, hlt, hgt] at hab
        · have hn : c.toNat = d.toNat := by omega
          have hc : c = d := Char.eq_of_val_eq (UInt32.toNat.inj hn)
          simp [charsLe, hlt, hgt] at hab hba
          rw [hc, ih ds hab hba]

/-- Modelled from the spec: "serialize the value with its top-level keys
sorted lexicographically" — a top-level object has its field list sorted by
key; every other value (and every nested object) is left untouched. -/
def sortTopLevelKeys : Json → Json
  | .obj fs => .obj (List.insertionSort keyLe fs)
  | j => j

/-- One step of the 32-bit rolling hash: h * 31 + charCode, wrapped to 32 bits. -/
def hashStep (h : Nat) (c : Char) : Nat := (h * 31 + c.toNat) % 4294967296

/-- Modelled from the spec: the 32-bit rolling hash over the serialized text
("hash = hash*31 + charCode, wrapped to 32-bit signed range"), as the unsigned
32-bit residue; `toSigned32` reinterprets it in the signed range. -/
def hashCode (s : String) : Nat := s.data.foldl hashStep 0

/-- Reinterpretation of an unsigned 32-bit residue in the signed 32-bit range. -/
def toSigned32 (n : Nat) : Int :=
  if n < 2147483648 then (n : Int) else (n : Int) - 4294967296

/-- Digit character for base-36 (0-9 then a-z). -/
def base36Digit (n : Nat) : Char :=
  if n < 10 then Char.ofNat (48 + n) else Char.ofNat (87 + n)

/-- Little helper for base-36 encoding: peel digits into an accumulator.
The first argument is fuel, structurally decreased so the recursion stays
kernel-reducible; `natBase36` supplies the number itself as fuel, which is
enough since the value shrinks by a factor of 36 every step. -/
def base36Go : Nat → Nat → List Char → List Char
  | 0, _, acc => acc
  | fuel + 1, n, acc =>
    if n = 0 then acc else base36Go fuel (n / 36) (base36Digit (n % 36) :: acc)

/-- Base-36 encoding of a natural number. -/
def natBase36 (n : Nat) : String :=
  if n = 0 then "0" else String.mk (base36Go n n [])

/-- Modelled from the spec: "encode the result in base 36" — JavaScript's
Number.prototype.toString(36), sign-prefixed for negative values. -/
def intBase36 (i : Int) : String :=
  if i < 0 then "-" ++ natBase36 i.natAbs else natBase36 i.toNat

/-- Modelled from the spec (§4.3 step 4): the normalized hash of a response —
serialize with top-level keys sorted, roll the 32-bit hash over the text,
reinterpret in the signed 32-bit range, encode in base 36. -/
def normalizedHash (j : Json) : String :=
  intBase36 (toSigned32 (hashCode (Json.serialize (sortTopLevelKeys j))))

/-- Status of one attempt, the `status: success | error` discriminant of the
Attempt record. -/
inductive CallStatus where
  | success : CallStatus
  | error : CallStatus
deriving DecidableEq

/-- Boolean test for `CallStatus.success`. -/
def CallStatus.isOk : CallStatus → Bool
  | .success => true
  | .error => false

/-- Modelled from the spec: the Attempt record of `strategiesTypes.ts` (the
`RPCProviderResponse` exported by the index), `{ url, status, responseTime,
data?, error?, hash? }`. The spec's data model writes the duration field as
`responseTimeMs`, but the repository's own tests read `response.responseTime`
(tests/networks/ArbitrumNetworkClient.test.ts), so the model uses
`responseTime`. -/
structure RPCProviderResponse where
  url : String
  status : CallStatus
  responseTime : Nat
  data : Option Json
  error : Option String
  hash : Option String

/-- Field names of the JavaScript object a produced Attempt record carries:
the three always-present fields followed by whichever optional fields are
populated. -/
def attemptKeys (a : RPCProviderResponse) : List String :=
  ["url", "status", "responseTime"]
    ++ (if a.data.isSome then ["data"] else [])
    ++ (if a.error.isSome then ["error"] else [])
    ++ (if a.hash.isSome then ["hash"] else [])

/-- Modelled from the spec: the Parallel-only RunMetadata
`{ strategy, timestamp, responses, hasInconsistencies }`. -/
structure RPCMetadata where
  strategy : String
  timestamp : Nat
  responses : List RPCProviderResponse
  hasInconsistencies : Bool

/-- Modelled from the spec: the uniform ResultEnvelope
`{ success, data?, errors?, metadata? }` returned by every strategy. -/
structure StrategyResult where
  success : Bool
  data : Option Json
  errors : List RPCProviderResponse
  metadata : Option RPCMetadata

/-- The Transport of `RpcClient.ts`: it owns exactly one endpoint URL. Its
request-id counter and the HTTP call itself are irrelevant to the claims
under study, which only concern which Transports the factory constructs. -/
structure RpcClient where
  url : String
deriving DecidableEq

/-- The strategy value returned by `StrategyFactory.create`: one of the two
concrete strategies, owning its ordered Transport list. -/
inductive RequestStrategy where
  | fallback (clients : List RpcClient) : RequestStrategy
  | parallel (clients : List RpcClient) : RequestStrategy
deriving DecidableEq

/-- The factory configuration of `requestStrategy.ts`: strategy kind plus the
ordered endpoint list. In TypeScript `type` is a union of the two known
literals, but the factory's default branch guards runtime values outside the
union, so the model uses `String`; `rpcUrls` is `Option`al because the
factory's `!config.rpcUrls` check guards a runtime-absent list. -/
structure StrategyConfig where
  type : String
  rpcUrls : Option (List String)

/-- The settled outcome of one Transport call, the input the strategies
aggregate: either the JSON-RPC `result` or a failure message, each with the
wall-clock duration of that individual call. -/
inductive CallOutcome where
  | success (data : Json) (time : Nat) : CallOutcome
  | failure (msg : String) (time : Nat) : CallOutcome

/-- Boolean test for a successful outcome. -/
def CallOutcome.isOk : CallOutcome → Bool
  | .success _ _ => true
  | .failure _ _ => false

/-- The JSON result of a successful outcome, if any. -/
def CallOutcome.result : CallOutcome → Option Json
  | .success d _ => some d
  | .failure _ _ => none

/-- `StrategyFactory.create` of `requestStrategy.ts`, instrumented: the first
component records the Transports constructed during the call (empty when the
factory throws before building any), the second is the returned strategy or
the thrown error's message. -/
def StrategyFactory.createT (config : StrategyConfig) :
    List RpcClient × Except String RequestStrategy :=
  match config.rpcUrls with
  | none => ([], .error "At least one RPC URL must be provided")
  | some urls =>
    if urls.length = 0 then ([], .error "At least one RPC URL must be provided")
    else
      let rpcClients := urls.map (fun urlConfig => { url := urlConfig })
      (rpcClients,
        if config.type = "fallback" then .ok (.fallback rpcClients)
        else if config.type = "parallel" then .ok (.parallel rpcClients)
        else .error ("Unknown strategy type: " ++ config.type))

/-- `StrategyFactory.create`: the strategy returned (or error thrown) by the
factory. -/
def StrategyFactory.create (config : StrategyConfig) : Except String RequestStrategy :=
  (StrategyFactory.createT config).2

/-- An error-entry Attempt record as the fallback strategy captures it for a
failed endpoint: status "error" with the attempt's message and duration. -/
def mkErrorAttempt (url msg : String) (time : Nat) : RPCProviderResponse :=
  { url := url, status := .error, responseTime := time,
    data := none, error := some msg, hash := none }

/-- Modelled from the spec (§4.2, `fallbackStrategy.ts` is not in the
checkout): iterate the configured endpoints in order; on the first success
return immediately with `success=true`, the result as `data`, and one error
entry per endpoint already tried and failed; if every endpoint fails return
`success=false` with one error entry per endpoint. No metadata is produced.
The first component of the result is the trace of endpoint URLs actually
called, in call order. -/
def FallbackStrategy.execute :
    List (String × CallOutcome) → List String × StrategyResult
  | [] => ([], { success := false, data := none, errors := [], metadata := none })
  | (url, .success d _) :: _ =>
    ([url], { success := true, data := some d, errors := [], metadata := none })
  | (url, .failure m t) :: rest =>
    (url :: (FallbackStrategy.execute rest).1,
      { (FallbackStrategy.execute rest).2 with
        errors := mkErrorAttempt url m t :: (FallbackStrategy.execute rest).2.errors })

/-- Modelled from the spec (§4.3 step 3-4, `parallelStrategy.ts` is not in
the checkout): the Attempt record built for one settled endpoint — a
successful attempt carries its data and the normalized hash of that data, a
failed attempt carries its error message; both carry the call's duration. -/
def mkAttempt : String × CallOutcome → RPCProviderResponse
  | (url, .success d t) =>
    { url := url, status := .success, responseTime := t,
      data := some d, error := none, hash := some (normalizedHash d) }
  | (url, .failure m t) => mkErrorAttempt url m t

/-- Modelled from the spec (§4.3 step 5): the inconsistency flag over the
hashes of the successful attempts, in configuration order — false when fewer
than two attempts succeeded, otherwise true exactly when some hash differs
from the first one. -/
def checkInconsistencies : List String → Bool
  | [] => false
  | [_] => false
  | h0 :: h1 :: rest => (h1 :: rest).any (fun h => h != h0)

/-- Modelled from the spec (§4.3, `parallelStrategy.ts` is not in the
checkout): aggregate the settled outcomes of all endpoints, taken in
configuration order (the implementation collects index-paired, so completion
order never enters). Success iff some attempt succeeded; data is the first
successful attempt's result; errors are the failed attempts; metadata is
always populated with the strategy name, a timestamp, the full ordered
attempt list and the inconsistency flag. -/
def ParallelStrategy.execute
    (eps : List (String × CallOutcome)) (now : Nat) : StrategyResult :=
  let responses := eps.map mkAttempt
  { success := responses.any (fun a => a.status.isOk),
    data := responses.findSome? (fun a => a.data),
    errors := responses.filter (fun a => !a.status.isOk),
    metadata := some
      { strategy := "parallel", timestamp := now, responses := responses,
        hasInconsistencies :=
          checkInconsistencies (responses.filterMap (fun a => a.hash)) } }

/-- Responses list of an envelope's metadata (empty when no metadata). -/
def resultResponses (r : StrategyResult) : List RPCProviderResponse :=
  match r.metadata with
  | some m => m.responses
  | none => []

/-- Inconsistency flag of an envelope's metadata (false when no metadata). -/
def resultInconsistencies (r : StrategyResult) : Bool :=
  match r.metadata with
  | some m => m.hasInconsistencies
  | none => false

/-- Number of endpoints whose call succeeded. -/
def successCount (eps : List (String × CallOutcome)) : Nat :=
  (eps.filter (fun p => p.2.isOk)).length

/-- A list of failing endpoints given as (url, message, duration) triples,
turned into settled outcomes. -/
def failList (l : List (String × String × Nat)) : List (String × CallOutcome) :=
  l.map (fun x => (x.1, CallOutcome.failure x.2.1 x.2.2))

/-- The error-entry Attempt records of a failing-endpoint triple list. -/
def failAttempts (l : List (String × String × Nat)) : List RPCProviderResponse :=
  l.map (fun x => mkErrorAttempt x.1 x.2.1 x.2.2)

example : normalizedHash (Json.obj [("a", Json.num 1), ("b", Json.num 2)]) =
    normalizedHash (Json.obj [("b", Json.num 2), ("a", Json.num 1)]) := by decide

/-- C1 counterexample: at the concrete configuration `{type: "fallback",
rpcUrls: []}` the factory does throw before building any Transport, but the
thrown message is "At least one RPC URL must be provided", not the claimed
"empty endpoint list". -/
theorem factory_empty_list_message_cx :
    StrategyFactory.createT { type := "fallback", rpcUrls := some [] } =
      ([], Except.error "At least one RPC URL must be provided") ∧
    "At least one RPC URL must be provided" ≠ "empty endpoint list" :=
  ⟨rfl, by decide⟩

/-- C1 (amended): for every configuration whose rpcUrls list is empty or
absent, StrategyFactory.create fails with a configuration error whose
message is "At least one RPC URL must be provided", and it throws before
constructing any Transport (the instrumented trace of constructed Transports
is empty). -/
theorem factory_empty_list_error (config : StrategyConfig)
    (h : config.rpcUrls = none ∨ config.rpcUrls = some []) :
    StrategyFactory.createT config =
      ([], Except.error "At least one RPC URL must be provided") := by
  rcases h with h | h <;> simp [StrategyFactory.createT, h]

/-- Witness for C1's amended theorem at the concrete configuration with an
absent rpcUrls list. -/
theorem factory_empty_list_error_witness :
    StrategyFactory.createT { type := "parallel", rpcUrls := none } =
      ([], Except.error "At least one RPC URL must be provided") :=
  factory_empty_list_error { type := "parallel", rpcUrls := none } (Or.inl rfl)

/-- C2: for every configuration with a non-empty rpcUrls list, the factory
builds one Transport per URL in order, then dispatches on the type:
"fallback" yields the fallback strategy over those Transports, "parallel"
yields the parallel strategy, and any other value fails with an error whose
message names the offending value. -/
theorem factory_dispatch (t u : String) (us : List String) :
    (StrategyFactory.createT { type := t, rpcUrls := some (u :: us) }).1 =
      (u :: us).map (fun s => { url := s }) ∧
    (t = "fallback" →
      StrategyFactory.create { type := t, rpcUrls := some (u :: us) } =
        .ok (.fallback ((u :: us).map (fun s => { url := s })))) ∧
    (t = "parallel" →
      StrategyFactory.create { type := t, rpcUrls := some (u :: us) } =
        .ok (.parallel ((u :: us).map (fun s => { url := s })))) ∧
    (t ≠ "fallback" → t ≠ "parallel" →
      StrategyFactory.create { type := t, rpcUrls := some (u :: us) } =
        .error ("Unknown strategy type: " ++ t) ∧
      ∃ p, "Unknown strategy type: " ++ t = p ++ t) := by
  refine ⟨?_, ?_, ?_, ?_⟩
  · simp [StrategyFactory.createT]
  · intro h; subst h; simp [StrategyFactory.create, StrategyFactory.createT]
  · intro h; subst h; simp [StrategyFactory.create, StrategyFactory.createT]
  · intro h1 h2
    refine ⟨?_, "Unknown strategy type: ", rfl⟩
    simp [StrategyFactory.create, StrategyFactory.createT, h1, h2]

/-- Witness for C2 at concrete configurations: the three dispatch outcomes at
type "fallback", "parallel" and "bogus" over the single URL "http://x". -/
theorem factory_dispatch_witness :
    StrategyFactory.create { type := "fallback", rpcUrls := some ["http://x"] } =
      .ok (.fallback [{ url := "http://x" }]) ∧
    StrategyFactory.create { type := "parallel", rpcUrls := some ["http://x"] } =
      .ok (.parallel [{ url := "http://x" }]) ∧
    StrategyFactory.create { type := "bogus", rpcUrls := some ["http://x"] } =
      .error "Unknown strategy type: bogus" := by
  refine ⟨(factory_dispatch "fallback" "http://x" []).2.1 rfl,
    (factory_dispatch "parallel" "http://x" []).2.2.1 rfl, ?_⟩
  exact ((factory_dispatch "bogus" "http://x" []).2.2.2 (by decide) (by decide)).1

/-- Helper: the URL carried by a built Attempt record is the endpoint's URL. -/
theorem mkAttempt_url (p : String × CallOutcome) : (mkAttempt p).url = p.1 := by
  obtain ⟨u, o⟩ := p
  cases o <;> rfl

/-- Helper: a built Attempt record is successful iff the settled outcome was. -/
theorem mkAttempt_status_isOk (p : String × CallOutcome) :
    (mkAttempt p).status.isOk = p.2.isOk := by
  obtain ⟨u, o⟩ := p
  cases o <;> rfl

/-- Helper: the data carried by a built Attempt record is the outcome's result. -/
theorem mkAttempt_data (p : String × CallOutcome) : (mkAttempt p).data = p.2.result := by
  obtain ⟨u, o⟩ := p
  cases o <;> rfl

/-- Helper: the hash of a built Attempt record is populated exactly by the
normalized hash of a successful outcome's data. -/
theorem mkAttempt_hash_eq_some_iff (p : String × CallOutcome) (h : String) :
    (mkAttempt p).hash = some h ↔
      ∃ d t, p.2 = CallOutcome.success d t ∧ h = normalizedHash d := by
  obtain ⟨u, o⟩ := p
  cases o with
  | success d t => simp [mkAttempt, eq_comm]
  | failure m t => simp [mkAttempt, mkErrorAttempt]

/-- Helper: an outcome is successful iff it is literally a success value. -/
theorem isOk_iff_success (o : CallOutcome) :
    o.isOk = true ↔ ∃ d t, o = CallOutcome.success d t := by
  cases o <;> simp [CallOutcome.isOk]

/-- Helper: a status fails the success test iff it is the error status. -/
theorem not_isOk_iff_error (s : CallStatus) : (!s.isOk) = true ↔ s = CallStatus.error := by
  cases s <;> simp [CallStatus.isOk]

/-- C10: the factory validates nothing about the endpoint strings themselves —
for both known strategy types and any non-empty list of arbitrary strings it
returns a strategy without throwing, built over exactly one Transport per
list entry, in order. -/
theorem factory_no_url_validation (u : String) (us : List String) :
    StrategyFactory.createT { type := "fallback", rpcUrls := some (u :: us) } =
      ((u :: us).map (fun s => { url := s }),
        .ok (.fallback ((u :: us).map (fun s => { url := s })))) ∧
    StrategyFactory.createT { type := "parallel", rpcUrls := some (u :: us) } =
      ((u :: us).map (fun s => { url := s }),
        .ok (.parallel ((u :: us).map (fun s => { url := s })))) := by
  constructor <;> simp [StrategyFactory.createT]

/-- C3: when the k-th configured endpoint is the first to succeed (encoded as
an arbitrary prefix of failing endpoints followed by a success), the fallback
envelope has success=true, data equal to that endpoint's result, and errors
containing exactly one entry per failed endpoint before it, in configuration
order; endpoints after it are never called (the call trace stops at the
successful URL) and are absent from errors. -/
theorem fallback_first_success (pre : List (String × String × Nat))
    (u : String) (d : Json) (t : Nat) (post : List (String × CallOutcome)) :
    (FallbackStrategy.execute (failList pre ++ (u, CallOutcome.success d t) :: post)).2.success
        = true ∧
    (FallbackStrategy.execute (failList pre ++ (u, CallOutcome.success d t) :: post)).2.data
        = some d ∧
    (FallbackStrategy.execute (failList pre ++ (u, CallOutcome.success d t) :: post)).2.errors
        = failAttempts pre ∧
    (FallbackStrategy.execute (failList pre ++ (u, CallOutcome.success d t) :: post)).2.errors.length
        = pre.length ∧
    (FallbackStrategy.execute (failList pre ++ (u, CallOutcome.success d t) :: post)).1
        = pre.map (fun x => x.1) ++ [u] := by
  induction pre with
  | nil => simp [failList, failAttempts, FallbackStrategy.execute]
  | cons x xs ih =>
    obtain ⟨h1, h2, h3, h4, h5⟩ := ih
    simp [failList, failAttempts, FallbackStrategy.execute] at h1 h2 h3 h4 h5 ⊢
    exact ⟨h1, h2, h3, h4, h5⟩

/-- C8: when every endpoint fails, the fallback envelope has success=false,
data absent, and errors containing exactly one entry per configured endpoint
in configuration order, each an error-status record carrying that attempt's
message and response time. -/
theorem fallback_total_failure (fails : List (String × String × Nat)) :
    (FallbackStrategy.execute (failList fails)).2.success = false ∧
    (FallbackStrategy.execute (failList fails)).2.data = none ∧
    (FallbackStrategy.execute (failList fails)).2.errors = failAttempts fails ∧
    (FallbackStrategy.execute (failList fails)).2.errors.length = fails.length ∧
    (failAttempts fails).all (fun a => !a.status.isOk) = true := by
  induction fails with
  | nil => simp [failList, failAttempts, FallbackStrategy.execute]
  | cons x xs ih =>
    obtain ⟨h1, h2, h3, h4, h5⟩ := ih
    simp [failList, failAttempts, FallbackStrategy.execute,
      mkErrorAttempt, CallStatus.isOk] at h1 h2 h3 h4 h5 ⊢
    exact ⟨h1, h2, h3, h4, h5⟩

/-- Helper: the parallel envelope's metadata responses are exactly the
Attempt records of the configured endpoints, in configuration order. -/
theorem resultResponses_execute (eps : List (String × CallOutcome)) (now : Nat) :
    resultResponses (ParallelStrategy.execute eps now) = eps.map mkAttempt := rfl

/-- C7: every parallel execution reports one Attempt per configured endpoint
(the responses list has the configured length) and in the configured order
(its URLs are the configured URLs, in order); completion order does not exist
in the model because the implementation collects results index-paired. -/
theorem parallel_responses_order (eps : List (String × CallOutcome)) (now : Nat) :
    (resultResponses (ParallelStrategy.execute eps now)).length = eps.length ∧
    (resultResponses (ParallelStrategy.execute eps now)).map (fun a => a.url)
      = eps.map (fun p => p.1) := by
  rw [resultResponses_execute]
  refine ⟨List.length_map _ _, ?_⟩
  rw [List.map_map]
  exact List.map_congr_left (fun p _ => mkAttempt_url p)

/-- Helper: the parallel envelope's success flag is the success test over the
built Attempt records. -/
theorem success_execute (eps : List (String × CallOutcome)) (now : Nat) :
    (ParallelStrategy.execute eps now).success
      = (eps.map mkAttempt).any (fun a => a.status.isOk) := rfl

/-- Helper: the parallel envelope's errors are the error-status Attempt
records. -/
theorem errors_execute (eps : List (String × CallOutcome)) (now : Nat) :
    (ParallelStrategy.execute eps now).errors
      = (eps.map mkAttempt).filter (fun a => !a.status.isOk) := rfl

/-- Helper: the parallel envelope's inconsistency flag is the check over the
successful attempts' hashes. -/
theorem resultInc_execute (eps : List (String × CallOutcome)) (now : Nat) :
    resultInconsistencies (ParallelStrategy.execute eps now)
      = checkInconsistencies ((eps.map mkAttempt).filterMap (fun a => a.hash)) := rfl

/-- Helper: a prefix of failing endpoints contributes nothing to the first
found data. -/
theorem findSome_data_failList (pre : List (String × String × Nat))
    (rest : List (String × CallOutcome)) :
    ((failList pre ++ rest).map mkAttempt).findSome? (fun a => a.data)
      = (rest.map mkAttempt).findSome? (fun a => a.data) := by
  induction pre with
  | nil => simp [failList]
  | cons x xs ih => simpa [failList, mkAttempt, mkErrorAttempt] using ih

/-- Helper: a prefix of failing endpoints contributes no hashes. -/
theorem filterMap_hash_failList (pre : List (String × String × Nat))
    (rest : List (String × CallOutcome)) :
    ((failList pre ++ rest).map mkAttempt).filterMap (fun a => a.hash)
      = (rest.map mkAttempt).filterMap (fun a => a.hash) := by
  induction pre with
  | nil => simp [failList]
  | cons x xs ih => simp [failList, mkAttempt, mkErrorAttempt, ih]

/-- Helper: there are exactly as many collected hashes as successful
endpoints. -/
theorem hashes_length (eps : List (String × CallOutcome)) :
    ((eps.map mkAttempt).filterMap (fun a => a.hash)).length = successCount eps := by
  induction eps with
  | nil => rfl
  | cons p l ih =>
    obtain ⟨u, o⟩ := p
    cases o with
    | success d t =>
      simpa [mkAttempt, successCount, CallOutcome.isOk, List.filter_cons] using ih
    | failure m t =>
      simpa [mkAttempt, mkErrorAttempt, successCount, CallOutcome.isOk,
        List.filter_cons] using ih

/-- Helper: the inconsistency check is false on fewer than two hashes. -/
theorem checkInc_of_short (hs : List String) (h : hs.length < 2) :
    checkInconsistencies hs = false := by
  cases hs with
  | nil => rfl
  | cons a t =>
    cases t with
    | nil => rfl
    | cons b t2 => simp at h; omega

/-- Helper: on at least one hash, the check compares every later hash to the
first one. -/
theorem checkInc_cons (h0 : String) (hs : List String) :
    checkInconsistencies (h0 :: hs) = hs.any (fun h => h != h0) := by
  cases hs <;> rfl

/-- Helper: membership in the collected hashes is existence of a successful
endpoint with that normalized hash. -/
theorem mem_hashes_iff (post : List (String × CallOutcome)) (h : String) :
    h ∈ (post.map mkAttempt).filterMap (fun a => a.hash) ↔
      ∃ p ∈ post, ∃ d2 t2, p.2 = CallOutcome.success d2 t2 ∧ h = normalizedHash d2 := by
  constructor
  · intro hmem
    rw [List.mem_filterMap] at hmem
    obtain ⟨a, ha, hh⟩ := hmem
    rw [List.mem_map] at ha
    obtain ⟨p, hp, rfl⟩ := ha
    obtain ⟨d2, t2, hsucc, rfl⟩ := (mkAttempt_hash_eq_some_iff p h).mp hh
    exact ⟨p, hp, d2, t2, hsucc, rfl⟩
  · rintro ⟨p, hp, d2, t2, hsucc, rfl⟩
    rw [List.mem_filterMap]
    exact ⟨mkAttempt p, List.mem_map_of_mem _ hp,
      (mkAttempt_hash_eq_some_iff p _).mpr ⟨d2, t2, hsucc, rfl⟩⟩

/-- C4: in every parallel execution the envelope's success is true iff some
endpoint succeeded; data is the first successful endpoint's result in
configuration order regardless of inconsistency; errors are exactly the
error-status Attempts among the responses; and metadata is always populated
with strategy "parallel", the capture timestamp, and the full ordered
responses list. -/
theorem parallel_envelope :
    (∀ (eps : List (String × CallOutcome)) (now : Nat),
      ((ParallelStrategy.execute eps now).success = true ↔
        ∃ p ∈ eps, ∃ d t, p.2 = CallOutcome.success d t)) ∧
    (∀ (pre : List (String × String × Nat)) (u : String) (d : Json) (t : Nat)
        (post : List (String × CallOutcome)) (now : Nat),
      (ParallelStrategy.execute (failList pre ++ (u, CallOutcome.success d t) :: post) now).data
        = some d) ∧
    (∀ (eps : List (String × CallOutcome)) (now : Nat) (a : RPCProviderResponse),
      (a ∈ (ParallelStrategy.execute eps now).errors ↔
        a ∈ resultResponses (ParallelStrategy.execute eps now) ∧
          a.status = CallStatus.error)) ∧
    (∀ (eps : List (String × CallOutcome)) (now : Nat),
      ∃ inc, (ParallelStrategy.execute eps now).metadata =
        some { strategy := "parallel", timestamp := now,
               responses := eps.map mkAttempt, hasInconsistencies := inc }) := by
  refine ⟨?_, ?_, ?_, ?_⟩
  · intro eps now
    rw [success_execute]
    simp only [List.any_eq_true, List.mem_map]
    constructor
    · rintro ⟨x, ⟨p, hp, rfl⟩, hok⟩
      rw [mkAttempt_status_isOk] at hok
      obtain ⟨d, t, hdt⟩ := (isOk_iff_success p.2).mp hok
      exact ⟨p, hp, d, t, hdt⟩
    · rintro ⟨p, hp, d, t, hdt⟩
      refine ⟨mkAttempt p, ⟨p, hp, rfl⟩, ?_⟩
      rw [mkAttempt_status_isOk, hdt]
      rfl
  · intro pre u d t post now
    show ((failList pre ++ _ :: post).map mkAttempt).findSome? (fun a => a.data) = some d
    rw [findSome_data_failList]
    simp [mkAttempt]
  · intro eps now a
    rw [errors_execute, resultResponses_execute, List.mem_filter]
    exact and_congr_right fun _ => not_isOk_iff_error a.status
  · intro eps now
    exact ⟨_, rfl⟩

/-- C5: in every parallel execution the inconsistency flag is false whenever
fewer than two endpoints succeeded, and otherwise (encoded as a failing
prefix, a first success, and an arbitrary tail) it is true iff some later
successful endpoint's normalized hash differs from the first successful
endpoint's. -/
theorem parallel_inconsistency :
    (∀ (eps : List (String × CallOutcome)) (now : Nat),
      successCount eps < 2 →
        resultInconsistencies (ParallelStrategy.execute eps now) = false) ∧
    (∀ (pre : List (String × String × Nat)) (u : String) (d : Json) (t : Nat)
        (post : List (String × CallOutcome)) (now : Nat),
      (resultInconsistencies
          (ParallelStrategy.execute
            (failList pre ++ (u, CallOutcome.success d t) :: post) now) = true ↔
        ∃ p ∈ post, ∃ d2 t2, p.2 = CallOutcome.success d2 t2 ∧
          normalizedHash d2 ≠ normalizedHash d)) := by
  constructor
  · intro eps now h
    rw [resultInc_execute]
    exact checkInc_of_short _ (by rw [hashes_length]; exact h)
  · intro pre u d t post now
    rw [resultInc_execute, filterMap_hash_failList]
    have hh : (((u, CallOutcome.success d t) :: post).map mkAttempt).filterMap
        (fun a => a.hash)
        = normalizedHash d :: ((post.map mkAttempt).filterMap (fun a => a.hash)) := by
      simp [mkAttempt, List.filterMap_cons]
    rw [hh, checkInc_cons, List.any_eq_true]
    constructor
    · rintro ⟨h, hmem, hneq⟩
      obtain ⟨p, hp, d2, t2, hsucc, rfl⟩ := (mem_hashes_iff post h).mp hmem
      exact ⟨p, hp, d2, t2, hsucc, by simpa using hneq⟩
    · rintro ⟨p, hp, d2, t2, hsucc, hne⟩
      exact ⟨normalizedHash d2,
        (mem_hashes_iff post _).mpr ⟨p, hp, d2, t2, hsucc, rfl⟩, by simpa using hne⟩

/-- Witness for C5 at a concrete input: one endpoint only (zero or one
successes can never diverge), here a single failing endpoint. -/
theorem parallel_inconsistency_witness :
    resultInconsistencies
      (ParallelStrategy.execute [("a", CallOutcome.failure "boom" 1)] 0) = false :=
  parallel_inconsistency.1 [("a", CallOutcome.failure "boom" 1)] 0 (by decide)

/-- Helper: two pairwise properties of one list combine pointwise. -/
theorem pairwise_conj {α : Type} {R S : α → α → Prop} :
    ∀ {l : List α}, l.Pairwise R → l.Pairwise S →
      l.Pairwise (fun a b => R a b ∧ S a b) := by
  intro l h1 h2
  induction l with
  | nil => exact List.Pairwise.nil
  | cons a l ih =>
    cases h1 with
    | cons ha hl =>
      cases h2 with
      | cons hb hm =>
        exact List.Pairwise.cons (fun b hbl => ⟨ha b hbl, hb b hbl⟩) (ih hl hm)

/-- Helper: a key-sorted field list with no duplicate keys is strictly
key-sorted. -/
theorem sorted_keyLt_of_nodup {l : List (String × Json)}
    (hs : List.Sorted keyLe l) (hnd : (l.map Prod.fst).Nodup) :
    List.Sorted keyLt l := by
  have h2 : l.Pairwise (fun p q : String × Json => p.1 ≠ q.1) :=
    List.pairwise_map.mp hnd
  exact pairwise_conj hs h2

/-- Helper: sorting by key is invariant under permutation of a field list
with distinct keys — the normalization at the heart of hash determinism. -/
theorem insertionSort_eq_of_perm (fs gs : List (String × Json))
    (hperm : fs.Perm gs) (hnd : (fs.map Prod.fst).Nodup) :
    List.insertionSort keyLe fs = List.insertionSort keyLe gs := by
  have hp2 : (List.insertionSort keyLe fs).Perm (List.insertionSort keyLe gs) :=
    (List.perm_insertionSort keyLe fs).trans
      (hperm.trans (List.perm_insertionSort keyLe gs).symm)
  have hnd1 : ((List.insertionSort keyLe fs).map Prod.fst).Nodup :=
    ((List.perm_insertionSort keyLe fs).map Prod.fst).nodup_iff.mpr hnd
  have hndg : (gs.map Prod.fst).Nodup := (hperm.map Prod.fst).nodup_iff.mp hnd
  have hnd2 : ((List.insertionSort keyLe gs).map Prod.fst).Nodup :=
    ((List.perm_insertionSort keyLe gs).map Prod.fst).nodup_iff.mpr hndg
  exact List.eq_of_perm_of_sorted hp2
    (sorted_keyLt_of_nodup (List.sorted_insertionSort keyLe fs) hnd1)
    (sorted_keyLt_of_nodup (List.sorted_insertionSort keyLe gs) hnd2)

/-- C6: the normalized hash is a pure function of a response's top-level-
sorted serialization — identical values hash identically; permuting the
top-level keys of an object (with distinct keys, as JavaScript objects have)
never changes the hash; and reordering keys inside a nested object is not
normalized, witnessed by a concrete nested pair whose hashes differ. -/
theorem normalized_hash_properties :
    (∀ a b : Json, a = b → normalizedHash a = normalizedHash b) ∧
    (∀ fs gs : List (String × Json), fs.Perm gs → (fs.map Prod.fst).Nodup →
      normalizedHash (Json.obj fs) = normalizedHash (Json.obj gs)) ∧
    normalizedHash
        (Json.obj [("a", Json.obj [("x", Json.num 1), ("y", Json.num 2)])]) ≠
      normalizedHash
        (Json.obj [("a", Json.obj [("y", Json.num 2), ("x", Json.num 1)])]) := by
  refine ⟨fun a b h => by rw [h], ?_, by decide⟩
  intro fs gs hperm hnd
  have hsort := insertionSort_eq_of_perm fs gs hperm hnd
  simp [normalizedHash, sortTopLevelKeys, hsort]

/-- Witness for C6 at a concrete input: the spec's scenario 2 — the same
object serialized with its two top-level keys in either order hashes
identically. -/
theorem normalized_hash_properties_witness :
    normalizedHash (Json.obj [("b", Json.num 2), ("a", Json.num 1)]) =
      normalizedHash (Json.obj [("a", Json.num 1), ("b", Json.num 2)]) :=
  normalized_hash_properties.2.1
    [("b", Json.num 2), ("a", Json.num 1)] [("a", Json.num 1), ("b", Json.num 2)]
    (List.Perm.swap ("a", Json.num 1) ("b", Json.num 2) [])
    (by decide)

/-- Helper: every error entry of a fallback execution is an error-attempt
record for some endpoint. -/
theorem fallback_errors_shape :
    ∀ (eps : List (String × CallOutcome)) (a : RPCProviderResponse),
      a ∈ (FallbackStrategy.execute eps).2.errors →
        ∃ u m t, a = mkErrorAttempt u m t := by
  intro eps
  induction eps with
  | nil => intro a ha; simp [FallbackStrategy.execute] at ha
  | cons p rest ih =>
    obtain ⟨u, o⟩ := p
    cases o with
    | success d t =>
      intro a ha
      simp [FallbackStrategy.execute] at ha
    | failure m t =>
      intro a ha
      simp only [FallbackStrategy.execute, List.mem_cons] at ha
      rcases ha with rfl | ha
      · exact ⟨u, m, t, rfl⟩
      · exact ih a ha

/-- C9 counterexample: at the concrete input of one failing endpoint, the
Attempt record produced by a parallel execution carries its per-call duration
under the field name "responseTime" — the key "responseTimeMs" named by the
claim does not occur among the record's fields. -/
theorem attempt_field_name_cx :
    (resultResponses
        (ParallelStrategy.execute [("u", CallOutcome.failure "boom" 5)] 0)).map
        attemptKeys
      = [["url", "status", "responseTime", "error"]] ∧
    "responseTimeMs" ∉ ["url", "status", "responseTime", "error"] :=
  ⟨rfl, by decide⟩

/-- C9 (amended): every Attempt record produced by a strategy execution has
the shape with fields url, status, responseTime (not responseTimeMs) always
present, optional fields drawn from data/error/hash only, and hash populated
exactly when the attempt succeeded (parallel) and never on the fallback
error entries. -/
theorem attempt_record_shape :
    (∀ (eps : List (String × CallOutcome)) (now : Nat) (a : RPCProviderResponse),
      a ∈ resultResponses (ParallelStrategy.execute eps now) →
        "url" ∈ attemptKeys a ∧ "status" ∈ attemptKeys a ∧
        "responseTime" ∈ attemptKeys a ∧
        attemptKeys a ⊆ ["url", "status", "responseTime", "data", "error", "hash"] ∧
        ("hash" ∈ attemptKeys a ↔ a.status = CallStatus.success)) ∧
    (∀ (eps : List (String × CallOutcome)) (a : RPCProviderResponse),
      a ∈ (FallbackStrategy.execute eps).2.errors →
        "url" ∈ attemptKeys a ∧ "status" ∈ attemptKeys a ∧
        "responseTime" ∈ attemptKeys a ∧
        attemptKeys a ⊆ ["url", "status", "responseTime", "data", "error", "hash"] ∧
        a.status = CallStatus.error ∧ "hash" ∉ attemptKeys a) := by
  constructor
  · intro eps now a ha
    rw [resultResponses_execute, List.mem_map] at ha
    obtain ⟨p, _, rfl⟩ := ha
    obtain ⟨u, o⟩ := p
    cases o with
    | success d t =>
      refine ⟨by simp [attemptKeys, mkAttempt], by simp [attemptKeys, mkAttempt],
        by simp [attemptKeys, mkAttempt], ?_, by simp [attemptKeys, mkAttempt]⟩
      simp only [attemptKeys, mkAttempt]
      intro s hs
      simp at hs
      rcases hs with rfl | rfl | rfl | rfl | rfl <;> simp
    | failure m t =>
      refine ⟨by simp [attemptKeys, mkAttempt, mkErrorAttempt],
        by simp [attemptKeys, mkAttempt, mkErrorAttempt],
        by simp [attemptKeys, mkAttempt, mkErrorAttempt], ?_,
        by simp [attemptKeys, mkAttempt, mkErrorAttempt]⟩
      simp only [attemptKeys, mkAttempt, mkErrorAttempt]
      intro s hs
      simp at hs
      rcases hs with rfl | rfl | rfl | rfl <;> simp
  · intro eps a ha
    obtain ⟨u, m, t, rfl⟩ := fallback_errors_shape eps a ha
    refine ⟨by simp [attemptKeys, mkErrorAttempt], by simp [attemptKeys, mkErrorAttempt],
      by simp [attemptKeys, mkErrorAttempt], ?_, rfl,
      by simp [attemptKeys, mkErrorAttempt]⟩
    simp only [attemptKeys, mkErrorAttempt]
    intro s hs
    simp at hs
    rcases hs with rfl | rfl | rfl | rfl <;> simp

/-- Witness for C9's amended theorem at concrete inputs: a successful
parallel attempt carries a hash key, a fallback error entry does not. -/
theorem attempt_record_shape_witness :
    "hash" ∈ attemptKeys (mkAttempt ("u", CallOutcome.success Json.null 3)) ∧
    "hash" ∉ attemptKeys (mkErrorAttempt "v" "m" 2) := by
  constructor
  · exact (attempt_record_shape.1 [("u", CallOutcome.success Json.null 3)] 0
      (mkAttempt ("u", CallOutcome.success Json.null 3))
      (List.mem_singleton.mpr rfl)).2.2.2.2.mpr rfl
  · exact (attempt_record_shape.2 [("v", CallOutcome.failure "m" 2)]
      (mkErrorAttempt "v" "m" 2) (List.mem_singleton.mpr rfl)).2.2.2.2.2
